import Mathlib

/-!
Shallow embedding of the table-reconstruction and composition-extraction core
of the `bakerhughes_final2` repository (`src/parsing.py`, `src/table_detect.py`,
`src/utils/config.py`), together with theorems settling the spec claims.

Python floats are modelled as `ℚ` (the claims under study concern branch
structure and exact divisions by powers of ten, not binary rounding), Python
ints as `ℤ`, strings as Lean `String` processed through their character lists.
-/

attribute [local semireducible] Rat.mul Rat.add Rat.sub Rat.inv

/-! ### Character and string helpers mirroring the Python primitives -/

/-- Whitespace characters recognised by Python's `str.strip` and the regex
class `\s` (ASCII fragment, which is all the OCR pipeline produces). -/
def isSpc (c : Char) : Bool :=
  c == ' ' || c == '\t' || c == '\n' || c == '\x0d' || c == '\x0b' || c == '\x0c'

/-- Python `str.strip()` on a character list. -/
def pyStripList (l : List Char) : List Char :=
  ((l.dropWhile isSpc).reverse.dropWhile isSpc).reverse

/-- Python `str.strip()`. -/
def pyStrip (s : String) : String := ⟨pyStripList s.data⟩

/-- Python `str.lower()` (ASCII). -/
def pyLower (s : String) : String := ⟨s.data.map Char.toLower⟩

/-- Python `str.upper()` (ASCII). -/
def pyUpper (s : String) : String := ⟨s.data.map Char.toUpper⟩

/-- Python `' '.join(...)`. -/
def joinSpace : List String → String
  | [] => ""
  | [s] => s
  | s :: rest => s ++ " " ++ joinSpace rest

/-- Whether `pat` is a leading segment of `l` (Python `str.startswith`). -/
def listStartsWith : List Char → List Char → Bool
  | [], _ => true
  | _ :: _, [] => false
  | p :: ps, c :: cs => p == c && listStartsWith ps cs

/-- Whether `pat` occurs contiguously inside `l` (Python `pat in s`). -/
def listContainsSub (pat : List Char) : List Char → Bool
  | [] => listStartsWith pat []
  | c :: rest => listStartsWith pat (c :: rest) || listContainsSub pat rest

/-- Value of a digit string (most significant first). -/
def digitsToNat (l : List Char) : ℕ :=
  l.foldl (fun n c => 10 * n + (c.toNat - 48)) 0

/-- Python `int(...)` restricted to the strings that reach it in
`infer_decimal_placement`: an optional leading minus followed by digits;
anything else raises `ValueError`, modelled as `none`. -/
def parseInt? : List Char → Option ℤ
  | '-' :: rest =>
    if !rest.isEmpty && rest.all Char.isDigit then some (-(digitsToNat rest : ℤ)) else none
  | l => if !l.isEmpty && l.all Char.isDigit then some ((digitsToNat l : ℤ)) else none

/-- Core of the float parser: digits, optionally a dot and more digits. -/
def pfCore (l : List Char) : Option ℚ :=
  let ip := l.takeWhile Char.isDigit
  match l.dropWhile Char.isDigit with
  | [] => if ip.isEmpty then none else some ((digitsToNat ip : ℚ))
  | '.' :: fp1 =>
    let fp := fp1.takeWhile Char.isDigit
    if (fp1.dropWhile Char.isDigit).isEmpty then
      if ip.isEmpty && fp.isEmpty then none
      else some ((digitsToNat ip : ℚ) + (digitsToNat fp : ℚ) / 10 ^ fp.length)
    else none
  | _ => none

/-- Python `float(...)` restricted to plain decimal literals (optional sign,
digits, at most one dot). Scientific notation, `inf`/`nan`, underscores and
surrounding whitespace are conservatively rejected; the cell strings the
normalizer feeds to `float` after its cleaning steps never use those forms in
the fragments the claims quantify over. -/
def parseFloatList? : List Char → Option ℚ
  | [] => pfCore []
  | c :: rest =>
    if c = '-' then (pfCore rest).map (fun q => -q)
    else if c = '+' then pfCore rest
    else pfCore (c :: rest)

/-- String-level wrapper for `parseFloatList?`. -/
def parseFloat? (s : String) : Option ℚ := parseFloatList? s.data

/-- After a space inside `l`, skip further spaces and report the next digit
together with the remainder; `none` if a non-digit (or the end) is reached.
Helper for the digit-space-collapse regex. -/
def dropSpacesToDigit : List Char → Option (Char × List Char)
  | [] => none
  | c :: rest =>
    if isSpc c then dropSpacesToDigit rest
    else if c.isDigit then some (c, rest) else none

/-- Fuelled worker for `collapse`; fuel `≥` length makes it total and keeps the
recursion structural so the kernel can evaluate it. -/
def collapseF : ℕ → List Char → List Char
  | _, [] => []
  | 0, l => l
  | fuel + 1, c :: rest =>
    if c.isDigit then
      match rest with
      | r :: _ =>
        if isSpc r then
          match dropSpacesToDigit rest with
          | some (d, tail) => c :: d :: collapseF fuel tail
          | none => c :: collapseF fuel rest
        else c :: collapseF fuel rest
      | [] => [c]
    else c :: collapseF fuel rest

/-- Python `re.sub(r'(\d)\s+(\d)', r'\1\2', value)`: each non-overlapping
digit–whitespace–digit occurrence loses the whitespace, and scanning resumes
after the second digit, exactly as `re.sub` does. -/
def collapse (l : List Char) : List Char := collapseF l.length l

/-! ### Configuration constants (`src/utils/config.py` and `parsing.py`) -/

/-- Element symbols from `config.ELEMENT_SYMBOLS`. -/
def ELEMENT_SYMBOLS : List String := ["Al", "V", "Fe", "C", "N", "O", "Y", "H"]

/-- Priority extraction order from `parsing.PRIORITY_ELEMENTS`. -/
def PRIORITY_ELEMENTS : List String := ["Al", "V", "Fe", "C", "N", "O", "Y", "H"]

/-- Units from `config.COMPOSITION_UNITS`. -/
def COMPOSITION_UNITS : List String := ["wt.%", "wt%", "%", "weight%", "mass%"]

/-- Keywords from `config.TABLE_KEYWORDS`. -/
def TABLE_KEYWORDS : List String :=
  ["composition", "chemical", "element", "requirement", "actual", "sample"]

/-- `ELEMENT_ORDER.get(sym, 999)`: index in the priority list, default 999. -/
def elementOrder (s : String) : ℕ :=
  match PRIORITY_ELEMENTS.findIdx? (fun e => e = s) with
  | some i => i
  | none => 999

/-! ### `infer_decimal_placement` (parsing.py lines 17–98) -/

/-- Decimal-placement inference, transcribed branch for branch from
`parsing.infer_decimal_placement`, including the two branches on `num < 100`
and `num < 1000` that are unreachable because `int()` has already discarded
leading zeros. -/
def infer_decimal_placement (value_str : String) (is_trace_element : Bool) : Option ℚ :=
  let clean := value_str.data.filter (fun c => c.isDigit || c == '-')
  if clean.isEmpty || clean == ['-'] then none
  else match parseInt? clean with
  | none => none
  | some num =>
    if is_trace_element then
      if num < 10 then some ((num : ℚ) / 1000)
      else if num < 100 then some ((num : ℚ) / 10000)
      else if num < 1000 then some ((num : ℚ) / 10000)
      else some ((num : ℚ) / 1000000)
    else if num = 0 then some 0
    else if num < 10 then some ((num : ℚ))
    else if num < 100 then
      if num % 10 = 0 then some ((num : ℚ) / 10)
      else if num < 30 then some ((num : ℚ) / 100)
      else some ((num : ℚ) / 10)
    else if num < 1000 then
      if num < 100 then
        (if num < 10 then some ((num : ℚ) / 1000) else some ((num : ℚ) / 1000))
      else if num < 200 then some ((num : ℚ) / 100)
      else some ((num : ℚ) / 100)
    else if num < 10000 then
      if num < 100 then some ((num : ℚ) / 10000)
      else if num < 1000 then some ((num : ℚ) / 10000)
      else some ((num : ℚ) / 1000)
    else some ((num : ℚ) / 10 ^ (clean.length - 1))

/-! ### `normalize_number` (parsing.py lines 101–154) -/

/-- Cleaning steps 1–2 of `normalize_number`: strip, detect and drop a leading
`<` (trace flag), comma to dot, drop `%`, collapse spaces between digits.
Returns the trace flag and the cleaned character list. -/
def nnClean (value : String) : Bool × List Char :=
  let v1 := pyStripList value.data
  let tr := v1.head? == some '<'
  let v2 := if tr then pyStripList v1.tail else v1
  let v3 := v2.map (fun c => if c == ',' then '.' else c)
  let v4 := v3.filter (fun c => !(c == '%'))
  (tr, collapse v4)

/-- Tail of `normalize_number`: keep digits and minus, reject empty or lone
minus, then run decimal-placement inference. -/
def nnFinish (l : List Char) (tr : Bool) : Option ℚ :=
  let w := l.filter (fun c => c.isDigit || c == '-')
  if w.isEmpty || w == ['-'] then none
  else infer_decimal_placement ⟨w⟩ tr

/-- `parsing.normalize_number`: the numeric normalizer. The return type is
`Option ℚ`, matching the source's `Optional[float]`; there is no separate
trace-marker value. -/
def normalize_number (value : String) : Option ℚ :=
  if value = "" then none
  else if '.' ∈ (nnClean value).2 then
    match parseFloatList? (nnClean value).2 with
    | some num =>
      if 100 < num ∧ (nnClean value).1 = false then
        if 1000 < num then some (num / 1000) else some (num / 10)
      else some num
    | none => nnFinish ((nnClean value).2.filter (fun c => !(c == '.'))) (nnClean value).1
  else nnFinish (nnClean value).2 (nnClean value).1

/-! ### `is_valid_composition_value` (parsing.py lines 157–176) -/

/-- Plausibility check for a composition value. -/
def is_valid_composition_value (value : ℚ) (unit : String) : Bool :=
  if unit ∈ (["wt.%", "wt%", "%", "weight%", "mass%"] : List String) then
    if value < 0 then decide (|value| < 1 / 10)
    else decide (0 ≤ value ∧ value ≤ 100)
  else decide (0 ≤ value)

/-! ### `extract_element_symbol` (parsing.py lines 179–248) -/

/-- The `ocr_corrections` dictionary: `some (some s)` is a key mapped to a
symbol, `some none` is a key mapped to Python `None`, `none` means the key is
absent. -/
def ocrLookup (t : String) : Option (Option String) :=
  if t = "Kin" then some (some "Mn")
  else if t = "kin" then some (some "Mn")
  else if t = "5" then some (some "S")
  else if t = "Oe" then some none
  else if t = "c" then some (some "C")
  else if t = "si" then some (some "Si")
  else if t = "cr" then some (some "Cr")
  else if t = "ni" then some (some "Ni")
  else if t = "mo" then some (some "Mo")
  else if t = "cu" then some (some "Cu")
  else if t = "nb" then some (some "Nb")
  else if t = "al" then some (some "Al")
  else if t = "fe" then some (some "Fe")
  else if t = "ti" then some (some "Ti")
  else if t = "v" then some (some "V")
  else if t = "n" then some (some "N")
  else if t = "o" then some (some "O")
  else if t = "h" then some (some "H")
  else if t = "y" then some (some "Y")
  else none

/-- Stages (b)–(d) of the element identifier: exact priority match,
case-insensitive match, leading-segment match, then substring match. -/
def eesStage3 (text tl : String) : Option String :=
  if text ∈ PRIORITY_ELEMENTS then some text
  else match PRIORITY_ELEMENTS.find? (fun s => pyUpper text == pyUpper s) with
  | some s => some s
  | none =>
    match PRIORITY_ELEMENTS.find?
        (fun s => listStartsWith s.data text.data
          || listStartsWith (pyLower s).data tl.data) with
    | some s => some s
    | none =>
      PRIORITY_ELEMENTS.find?
        (fun s => listContainsSub s.data text.data
          || listContainsSub (pyLower s).data tl.data)

/-- Lowercased OCR-corrections lookup, falling through to `eesStage3` exactly
when the source does. -/
def eesStage2 (text tl : String) : Option String :=
  match ocrLookup tl with
  | some (some c) => if c ∈ PRIORITY_ELEMENTS then some c else eesStage3 text tl
  | _ => eesStage3 text tl

/-- `parsing.extract_element_symbol`: map a raw token to a priority-set symbol
or `none`. -/
def extract_element_symbol (text0 : String) : Option String :=
  let text := pyStrip text0
  let tl := pyLower text
  match ocrLookup text with
  | some none => none
  | some (some c) => if c ∈ PRIORITY_ELEMENTS then some c else eesStage2 text tl
  | none => eesStage2 text tl

/-! ### `extract_unit` (parsing.py lines 251–268) -/

/-- `parsing.extract_unit`: first unit whose lowercase form occurs in the
lowercased text, defaulting to `wt.%`. -/
def extract_unit (text : String) : String :=
  let t := pyLower text
  match COMPOSITION_UNITS.find? (fun u => listContainsSub (pyLower u).data t.data) with
  | some u => u
  | none => "wt.%"

/-! ### Number-pattern searches (`re.search` in the two extractors) -/

/-- Character class `[\d,\.]`. -/
def isNumClass (c : Char) : Bool := c.isDigit || c == ',' || c == '.'

/-- `re.search(r'[\d,\.]+', cell)`: first maximal run of digits, commas and
dots. -/
def reSearchNum (s : String) : Option String :=
  let l := s.data.dropWhile (fun c => !isNumClass c)
  if l.isEmpty then none else some ⟨l.takeWhile isNumClass⟩

/-- `re.search(r'[\d,\.]+(?:-[\d,\.]+)?', cell)`: as above, optionally
followed by a hyphen and a second run. -/
def reSearchNumRange (s : String) : Option String :=
  let l := s.data.dropWhile (fun c => !isNumClass c)
  if l.isEmpty then none
  else
    let a := l.takeWhile isNumClass
    match l.drop a.length with
    | '-' :: r2 =>
      let b := r2.takeWhile isNumClass
      if b.isEmpty then some ⟨a⟩ else some ⟨a ++ '-' :: b⟩
    | _ => some ⟨a⟩

/-! ### Stable sorting (Python `list.sort` with a key) -/

/-- Insert `a` into an already-sorted list, before the first element whose key
is not smaller; together with `pySort` this is the unique stable sort, which
is what Python's `list.sort(key=...)` computes. -/
def sortInsert {α : Type} {κ : Type} [LinearOrder κ] (key : α → κ) (a : α) :
    List α → List α
  | [] => [a]
  | b :: bs => if key a ≤ key b then a :: b :: bs else b :: sortInsert key a bs

/-- Stable insertion sort by a key function. -/
def pySort {α : Type} {κ : Type} [LinearOrder κ] (key : α → κ) : List α → List α
  | [] => []
  | a :: as => sortInsert key a (pySort key as)

/-! ### Composition records and the two extractors (parsing.py 271–456) -/

/-- One extracted record: the dictionaries
`{'element_symbol': ..., 'value': ..., 'unit': ...}` built by the source. -/
structure CompositionRecord where
  element_symbol : String
  value : ℚ
  unit : String
deriving DecidableEq

/-- The guarded append shared by both extractors: do nothing when the element
was already seen or the value fails the plausibility check, otherwise append
the record and mark the element as seen. -/
def addRecord (unit : String) (st : List CompositionRecord × List String)
    (e : String) (v : ℚ) : List CompositionRecord × List String :=
  if e ∈ st.2 then st
  else if is_valid_composition_value v unit then
    (st.1 ++ [⟨e, v, unit⟩], st.2 ++ [e])
  else st

/-- Strategy A (column-positional), for rows with at least two cells: element
symbol from cell 0, then the candidate numbers of the remaining cells, sorted
by `(column, value)` among the plausible ones, else by `(column, |value|)`. -/
def strat1 (unit : String) (seen : List String) (row : List String) :
    Option String × Option ℚ :=
  match extract_element_symbol (row.headD "") with
  | none => (none, none)
  | some e =>
    if e ∈ seen then (some e, none)
    else
      let candidates := (row.tail.enum).filterMap
        (fun p => (normalize_number p.2).map (fun n => (n, p.1 + 1)))
      if candidates.isEmpty then (some e, none)
      else
        let vcs := candidates.filter (fun p => is_valid_composition_value p.1 unit)
        if !vcs.isEmpty then
          (some e, ((pySort (fun p => toLex (p.2, p.1)) vcs).head?).map (fun p => p.1))
        else
          (some e, ((pySort (fun p => toLex (p.2, |p.1|)) candidates).head?).map (fun p => p.1))

/-- Strategy B (pair-scanning) worker over the enumerated cells; `cur` is the
`element_symbol` variable, which the loop overwrites whenever it meets an
unseen element even if no value is found for it. -/
def strat2Aux (seen : List String) (row : List String) :
    List (ℕ × String) → Option String → Option String × Option ℚ
  | [], cur => (cur, none)
  | (i, cell) :: rest, cur =>
    match extract_element_symbol cell with
    | some e =>
      if e ∈ seen then strat2Aux seen row rest cur
      else
        let v :=
          match reSearchNum cell with
          | some m => normalize_number m
          | none =>
            let v1 := if i + 1 < row.length then normalize_number (row.getD (i + 1) "") else none
            if v1 = none ∧ 0 < i then normalize_number (row.getD (i - 1) "") else v1
        match v with
        | some v0 => (some e, some v0)
        | none => strat2Aux seen row rest (some e)
    | none => strat2Aux seen row rest cur

/-- Strategy C (header-driven) worker over the enumerated headers. -/
def strat3Aux (seen : List String) (row : List String) :
    List (ℕ × String) → Option String → Option String × Option ℚ
  | [], cur => (cur, none)
  | (i, hdr) :: rest, cur =>
    match extract_element_symbol hdr with
    | some e =>
      if e ∈ seen then strat3Aux seen row rest cur
      else if i < row.length then
        match normalize_number (row.getD i "") with
        | some v => (some e, some v)
        | none => strat3Aux seen row rest (some e)
      else strat3Aux seen row rest cur
    | none => strat3Aux seen row rest cur

/-- The per-row cascade of the three strategies, with the source's guards:
Strategy A only on rows with `≥ 2` cells, Strategy B when the element is still
missing or already seen, Strategy C when the element is still `None` and there
are at least two headers. -/
def rowCandidate (headers : List String) (unit : String) (seen : List String)
    (row : List String) : Option String × Option ℚ :=
  let s1 := if 2 ≤ row.length then strat1 unit seen row else (none, none)
  let s2 :=
    if (match s1.1 with | none => true | some e => decide (e ∈ seen)) then
      strat2Aux seen row row.enum s1.1
    else s1
  if s2.1 = none ∧ 1 < headers.length then strat3Aux seen row headers.enum none
  else s2

/-- One data row of the primary extractor: skip blank rows, otherwise run the
strategy cascade and the final guarded append. -/
def pstcStep (headers : List String) (unit : String)
    (st : List CompositionRecord × List String) (row : List String) :
    List CompositionRecord × List String :=
  if row = [] ∨ row.all (fun c => pyStrip c == "") then st
  else match rowCandidate headers unit st.2 row with
    | (some e, some v) => addRecord unit st e v
    | _ => st

/-- Header-row detection: first of the first three rows whose joined text
contains a lowercased element symbol or the word `element`; default 0. -/
def headerRowIdx (table : List (List String)) : ℕ :=
  match (table.take 3).findIdx? (fun row =>
    let rt := pyLower (joinSpace row)
    ELEMENT_SYMBOLS.any (fun s => listContainsSub (pyLower s).data rt.data)
      || listContainsSub "element".data rt.data) with
  | some i => i
  | none => 0

/-- Mean of the kept values (`sum(values)/len(values)`; only applied to
nonempty lists by the source, and `0` on `[]` here since `ℚ` division by zero
is zero). -/
def avgOf (l : List CompositionRecord) : ℚ :=
  (l.map (fun r => r.value)).sum / l.length

/-- Post-processing of `parse_table_to_composition_data` (lines 377–389):
global division by 100 when the mean exceeds 50, division of the individual
values exceeding 50 when the mean exceeds 20, otherwise no change. -/
def postProcess (l : List CompositionRecord) : List CompositionRecord :=
  if l.isEmpty then l
  else if 50 < avgOf l then
    l.map (fun r => { r with value := r.value / 100 })
  else if 20 < avgOf l then
    l.map (fun r => if 50 < r.value then { r with value := r.value / 100 } else r)
  else l

/-- `parsing.parse_table_to_composition_data`: the primary Composition
Extractor. -/
def parse_table_to_composition_data (table : List (List String)) :
    List CompositionRecord :=
  if table = [] ∨ table.length < 2 then []
  else
    let hidx := headerRowIdx table
    let headers := table.getD hidx []
    let unit := extract_unit (pyLower (joinSpace headers))
    let dataRows := table.drop (hidx + 1)
    let st := dataRows.foldl (pstcStep headers unit) ([], [])
    pySort (fun r => elementOrder r.element_symbol) (postProcess st.1)

/-- Value of the matched number pattern in the fallback extractor, splitting a
hyphenated range `a-b` and preferring the first bound. -/
def rangeValue (numStr : String) : Option ℚ :=
  if numStr.data.contains '-' ∧ ¬ numStr.data.head? = some '-' then
    match numStr.data.splitOn '-' with
    | [p1, p2] =>
      match normalize_number ⟨p1⟩ with
      | some v => some v
      | none => normalize_number ⟨p2⟩
    | _ => normalize_number numStr
  else normalize_number numStr

/-- One cell of the fallback extractor `parse_table_simple_heuristic`. -/
def pshCellStep (unit : String) (st : List CompositionRecord × List String)
    (cell0 : String) : List CompositionRecord × List String :=
  let cell := pyStrip cell0
  if cell = "" then st
  else match extract_element_symbol cell with
    | none => st
    | some e =>
      if e ∈ st.2 then st
      else match reSearchNumRange cell with
        | none => st
        | some numStr =>
          match rangeValue numStr with
          | none => st
          | some v => addRecord unit st e v

/-- `parsing.parse_table_simple_heuristic`: the Fallback Heuristic
Extractor. -/
def parse_table_simple_heuristic (table : List (List String)) :
    List CompositionRecord :=
  let unit := extract_unit (pyLower (joinSpace (table.map joinSpace)))
  let st := table.foldl (fun s row => row.foldl (pshCellStep unit) s)
    (([], []) : List CompositionRecord × List String)
  pySort (fun r => elementOrder r.element_symbol) st.1

/-! ### `detect_table_regions` (table_detect.py lines 8–71) -/

/-- One OCR fragment: `{text, left, top, width, height, confidence}`. The
coordinates are Python ints (`ℤ`; the reconstruction subtracts them). -/
structure TextFragment where
  text : String
  left : ℤ
  top : ℤ
  width : ℤ
  height : ℤ
  confidence : ℤ
deriving DecidableEq

/-- Vertical centre `top + height // 2` (Python floor division). -/
def yCenter (f : TextFragment) : ℤ := f.top + f.height.fdiv 2

/-- Assign a fragment to the first existing row anchor within 25 px, else
append a new row anchored at the fragment's own centre — the dict-insertion
semantics of the source's `rows` defaultdict. -/
def insertFrag (yc : ℤ) (f : TextFragment) :
    List (ℤ × List TextFragment) → List (ℤ × List TextFragment)
  | [] => [(yc, [f])]
  | (k, fs) :: rest =>
    if (yc - k).natAbs < 25 then (k, fs ++ [f]) :: rest
    else (k, fs) :: insertFrag yc f rest

/-- The anchor-keyed rows in dict insertion order. -/
def rowsOf (ocr : List TextFragment) : List (ℤ × List TextFragment) :=
  ocr.foldl (fun acc f => insertFrag (yCenter f) f acc) []

/-- `sorted(rows.items())`: rows sorted by ascending anchor (anchors are
pairwise distinct, so comparing the keys decides the Python tuple order). -/
def sortedRowsOf (ocr : List TextFragment) : List (ℤ × List TextFragment) :=
  pySort (fun r => r.1) (rowsOf ocr)

/-- `sorted(items, key=lambda x: x['left'])` inside one row. -/
def sortRowFrags (items : List TextFragment) : List TextFragment :=
  pySort (fun f => f.left) items

/-- Concatenate `s` onto the last element (`row_text[-1] += item['text']`). -/
def appendLast (s : String) : List String → List String
  | [] => []
  | [x] => [x ++ s]
  | x :: xs => x :: appendLast s xs

/-- Merge a row's left-sorted fragments into cells, gluing a fragment onto the
previous cell when the horizontal gap is below 30 px. -/
def mergeCells (items : List TextFragment) : List String :=
  (items.foldl (fun (acc : List String × Option TextFragment) item =>
    match acc.2 with
    | some prev =>
      if item.left - prev.left - prev.width < 30
      then (appendLast item.text acc.1, some item)
      else (acc.1 ++ [item.text], some item)
    | none => (acc.1 ++ [item.text], some item)) ([], none)).1

/-- `table_detect.detect_table_regions`: the Row/Column Reconstructor. The
source's `min_rows`/`min_cols` parameters are unused by its body and omitted
here. -/
def detect_table_regions (ocr_results : List TextFragment) : List (List String) :=
  if ocr_results = [] then []
  else ((sortedRowsOf ocr_results).map (fun r => mergeCells (sortRowFrags r.2))).filter
    (fun row => !row.isEmpty)

/-! ### `is_chemical_composition_table` (table_detect.py lines 74–106) -/

/-- The Table Classifier: at least two keyword hits in the lowercased
flattened text, or at least three case-sensitive element-symbol hits in that
same lowercased text. -/
def is_chemical_composition_table (table : List (List String)) : Bool :=
  let flat := pyLower (joinSpace (table.map joinSpace))
  let kw := TABLE_KEYWORDS.countP (fun k => listContainsSub (pyLower k).data flat.data)
  let el := ELEMENT_SYMBOLS.countP (fun s => listContainsSub s.data flat.data)
  decide (2 ≤ kw) || decide (3 ≤ el)

/-- The invariant carried through both extractors: the emitted symbols are
pairwise distinct and all of them have been marked as seen. -/
def DedupInv (st : List CompositionRecord × List String) : Prop :=
  (st.1.map (fun r => r.element_symbol)).Nodup ∧
    ∀ r ∈ st.1, r.element_symbol ∈ st.2

/-! ### Lemmas about the stable sort -/

theorem sortInsert_perm {α κ : Type} [LinearOrder κ] (key : α → κ) (a : α) :
    ∀ l : List α, (sortInsert key a l).Perm (a :: l)
  | [] => by simp [sortInsert]
  | b :: bs => by
    simp only [sortInsert]
    split
    · exact List.Perm.refl _
    · exact ((sortInsert_perm key a bs).cons b).trans (List.Perm.swap a b bs)

theorem pySort_perm {α κ : Type} [LinearOrder κ] (key : α → κ) :
    ∀ l : List α, (pySort key l).Perm l
  | [] => List.Perm.refl _
  | a :: as => (sortInsert_perm key a (pySort key as)).trans ((pySort_perm key as).cons a)

theorem mem_pySort {α κ : Type} [LinearOrder κ] (key : α → κ) (l : List α) (x : α) :
    x ∈ pySort key l ↔ x ∈ l :=
  (pySort_perm key l).mem_iff

theorem sortInsert_pairwise {α κ : Type} [LinearOrder κ] (key : α → κ) (a : α) :
    ∀ l : List α, l.Pairwise (fun x y => key x ≤ key y) →
      (sortInsert key a l).Pairwise (fun x y => key x ≤ key y)
  | [], _ => by simp [sortInsert]
  | b :: bs, h => by
    rw [List.pairwise_cons] at h
    simp only [sortInsert]
    split
    case isTrue hab =>
      refine List.pairwise_cons.mpr ⟨?_, List.pairwise_cons.mpr h⟩
      intro y hy
      rcases List.mem_cons.mp hy with rfl | hy'
      · exact hab
      · exact le_trans hab (h.1 y hy')
    case isFalse hab =>
      refine List.pairwise_cons.mpr ⟨?_, sortInsert_pairwise key a bs h.2⟩
      intro y hy
      rcases List.mem_cons.mp ((sortInsert_perm key a bs).subset hy) with rfl | hy'
      · exact le_of_lt (not_le.mp hab)
      · exact h.1 y hy'

theorem pySort_pairwise {α κ : Type} [LinearOrder κ] (key : α → κ) :
    ∀ l : List α, (pySort key l).Pairwise (fun x y => key x ≤ key y)
  | [] => List.Pairwise.nil
  | a :: as => sortInsert_pairwise key a _ (pySort_pairwise key as)

/-! ### Fold-invariant machinery for the two extractors -/

theorem foldl_preserve {σ α : Type} (P : σ → Prop) (f : σ → α → σ)
    (hf : ∀ s a, P s → P (f s a)) : ∀ (l : List α) (s : σ), P s → P (l.foldl f s)
  | [], _, hs => hs
  | a :: l, s, hs => foldl_preserve P f hf l (f s a) (hf s a hs)

theorem addRecord_valid (unit : String) (st : List CompositionRecord × List String)
    (e : String) (v : ℚ)
    (h : ∀ r ∈ st.1, is_valid_composition_value r.value r.unit = true) :
    ∀ r ∈ (addRecord unit st e v).1, is_valid_composition_value r.value r.unit = true := by
  unfold addRecord
  split
  · exact h
  · split
    case isTrue hv =>
      intro r hr
      rcases List.mem_append.mp hr with hr' | hr'
      · exact h r hr'
      · rcases List.mem_singleton.mp hr' with rfl
        exact hv
    case isFalse => exact h

theorem pstcStep_valid (headers : List String) (unit : String)
    (st : List CompositionRecord × List String) (row : List String)
    (h : ∀ r ∈ st.1, is_valid_composition_value r.value r.unit = true) :
    ∀ r ∈ (pstcStep headers unit st row).1,
      is_valid_composition_value r.value r.unit = true := by
  unfold pstcStep
  split
  · exact h
  · split
    · exact addRecord_valid _ _ _ _ h
    · exact h

theorem pshCellStep_valid (unit : String) (st : List CompositionRecord × List String)
    (cell : String)
    (h : ∀ r ∈ st.1, is_valid_composition_value r.value r.unit = true) :
    ∀ r ∈ (pshCellStep unit st cell).1,
      is_valid_composition_value r.value r.unit = true := by
  show ∀ r ∈ (if pyStrip cell = "" then st
      else
        match extract_element_symbol (pyStrip cell) with
        | none => st
        | some e =>
          if e ∈ st.2 then st
          else
            match reSearchNumRange (pyStrip cell) with
            | none => st
            | some numStr =>
              match rangeValue numStr with
              | none => st
              | some v => addRecord unit st e v).1,
    is_valid_composition_value r.value r.unit = true
  split
  · exact h
  · split
    · exact h
    · split
      · exact h
      · split
        · exact h
        · split
          · exact h
          · exact addRecord_valid _ _ _ _ h

theorem valid_div100 (v : ℚ) (u : String)
    (h : is_valid_composition_value v u = true) :
    is_valid_composition_value (v / 100) u = true := by
  unfold is_valid_composition_value at h ⊢
  split at h
  case isTrue hu =>
    rw [if_pos hu]
    split at h
    case isTrue hv =>
      have habs : |v| < 1 / 10 := of_decide_eq_true h
      rw [if_pos (show v / 100 < 0 from div_neg_of_neg_of_pos hv (by norm_num))]
      refine decide_eq_true ?_
      rw [abs_div, abs_of_pos (show (0:ℚ) < 100 by norm_num)]
      calc |v| / 100 ≤ |v| := div_le_self (abs_nonneg v) (by norm_num)
        _ < 1 / 10 := habs
    case isFalse hv =>
      have hv' : 0 ≤ v ∧ v ≤ 100 := of_decide_eq_true h
      have h0 : 0 ≤ v / 100 := div_nonneg hv'.1 (by norm_num)
      rw [if_neg (not_lt.mpr h0)]
      refine decide_eq_true ⟨h0, ?_⟩
      calc v / 100 ≤ v := div_le_self hv'.1 (by norm_num)
        _ ≤ 100 := hv'.2
  case isFalse hu =>
    rw [if_neg hu]
    have hv' : 0 ≤ v := of_decide_eq_true h
    exact decide_eq_true (div_nonneg hv' (by norm_num))

theorem postProcess_valid (l : List CompositionRecord)
    (h : ∀ r ∈ l, is_valid_composition_value r.value r.unit = true) :
    ∀ r ∈ postProcess l, is_valid_composition_value r.value r.unit = true := by
  unfold postProcess
  split
  · exact h
  · split
    · intro r hr
      rcases List.mem_map.mp hr with ⟨r0, hr0, rfl⟩
      exact valid_div100 _ _ (h r0 hr0)
    · split
      · intro r hr
        rcases List.mem_map.mp hr with ⟨r0, hr0, rfl⟩
        by_cases h50 : 50 < r0.value
        · rw [if_pos h50]
          exact valid_div100 _ _ (h r0 hr0)
        · rw [if_neg h50]
          exact h r0 hr0
      · exact h

theorem pipelineA_valid (headers : List String) (unit : String)
    (rows : List (List String)) :
    ∀ r ∈ pySort (fun r => elementOrder r.element_symbol)
        (postProcess (rows.foldl (pstcStep headers unit) ([], [])).1),
      is_valid_composition_value r.value r.unit = true := by
  intro r hr
  rw [mem_pySort] at hr
  refine postProcess_valid _ ?_ r hr
  have := foldl_preserve
    (fun st : List CompositionRecord × List String =>
      ∀ r' ∈ st.1, is_valid_composition_value r'.value r'.unit = true)
    (pstcStep headers unit)
    (fun st row h => pstcStep_valid headers unit st row h)
    rows ([], []) (by intro r' hr'; cases hr')
  exact this

theorem pipelineB_valid (unit : String) (table : List (List String)) :
    ∀ r ∈ pySort (fun r => elementOrder r.element_symbol)
        (table.foldl (fun s row => row.foldl (pshCellStep unit) s) ([], [])).1,
      is_valid_composition_value r.value r.unit = true := by
  intro r hr
  rw [mem_pySort] at hr
  have := foldl_preserve
    (fun st : List CompositionRecord × List String =>
      ∀ r' ∈ st.1, is_valid_composition_value r'.value r'.unit = true)
    (fun s row => row.foldl (pshCellStep unit) s)
    (fun st row h => foldl_preserve _ (pshCellStep unit)
      (fun s c hs => pshCellStep_valid unit s c hs) row st h)
    table ([], []) (by intro r' hr'; cases hr')
  exact this r hr

/-! ### Deduplication invariant -/

theorem addRecord_dedup (unit : String) (st : List CompositionRecord × List String)
    (e : String) (v : ℚ) (h : DedupInv st) : DedupInv (addRecord unit st e v) := by
  unfold addRecord
  split
  · exact h
  case isFalse he =>
    split
    · constructor
      · rw [List.map_append]
        simp only [List.map_cons, List.map_nil]
        refine (List.perm_append_singleton _ _).nodup_iff.mpr ?_
        refine List.nodup_cons.mpr ⟨?_, h.1⟩
        intro hmem
        rcases List.mem_map.mp hmem with ⟨r0, hr0, he0⟩
        exact he (he0 ▸ h.2 r0 hr0)
      · intro r hr
        rcases List.mem_append.mp hr with hr' | hr'
        · exact List.mem_append.mpr (Or.inl (h.2 r hr'))
        · rcases List.mem_singleton.mp hr' with rfl
          exact List.mem_append.mpr (Or.inr (List.mem_singleton.mpr rfl))
    · exact h

theorem pstcStep_dedup (headers : List String) (unit : String)
    (st : List CompositionRecord × List String) (row : List String)
    (h : DedupInv st) : DedupInv (pstcStep headers unit st row) := by
  unfold pstcStep
  split
  · exact h
  · split
    · exact addRecord_dedup _ _ _ _ h
    · exact h

theorem pshCellStep_dedup (unit : String) (st : List CompositionRecord × List String)
    (cell : String) (h : DedupInv st) : DedupInv (pshCellStep unit st cell) := by
  show DedupInv (if pyStrip cell = "" then st
      else
        match extract_element_symbol (pyStrip cell) with
        | none => st
        | some e =>
          if e ∈ st.2 then st
          else
            match reSearchNumRange (pyStrip cell) with
            | none => st
            | some numStr =>
              match rangeValue numStr with
              | none => st
              | some v => addRecord unit st e v)
  split
  · exact h
  · split
    · exact h
    · split
      · exact h
      · split
        · exact h
        · split
          · exact h
          · exact addRecord_dedup _ _ _ _ h

/-- Symbol projection is unchanged by the record update in `postProcess`. -/
theorem postProcess_map_sym (l : List CompositionRecord) :
    (postProcess l).map (fun r => r.element_symbol)
      = l.map (fun r => r.element_symbol) := by
  unfold postProcess
  split
  · rfl
  · split
    · rw [List.map_map]
      rfl
    · split
      · rw [List.map_map]
        refine List.map_congr_left ?_
        intro r _
        by_cases h50 : 50 < r.value
        · simp only [Function.comp_apply, if_pos h50]
        · simp only [Function.comp_apply, if_neg h50]
      · rfl

theorem pipelineA_nodup (headers : List String) (unit : String)
    (rows : List (List String)) :
    ((pySort (fun r => elementOrder r.element_symbol)
        (postProcess (rows.foldl (pstcStep headers unit) ([], [])).1)).map
      (fun r => r.element_symbol)).Nodup := by
  have hfold : DedupInv (rows.foldl (pstcStep headers unit) ([], [])) :=
    foldl_preserve DedupInv (pstcStep headers unit)
      (fun st row h => pstcStep_dedup headers unit st row h)
      rows ([], []) ⟨List.nodup_nil, by intro r hr; cases hr⟩
  have hperm := (pySort_perm (fun r : CompositionRecord => elementOrder r.element_symbol)
    (postProcess (rows.foldl (pstcStep headers unit) ([], [])).1)).map
      (fun r => r.element_symbol)
  rw [hperm.nodup_iff, postProcess_map_sym]
  exact hfold.1

theorem pipelineB_nodup (unit : String) (table : List (List String)) :
    ((pySort (fun r => elementOrder r.element_symbol)
        (table.foldl (fun s row => row.foldl (pshCellStep unit) s) ([], [])).1).map
      (fun r => r.element_symbol)).Nodup := by
  have hfold : DedupInv (table.foldl (fun s row => row.foldl (pshCellStep unit) s) ([], [])) :=
    foldl_preserve DedupInv (fun s row => row.foldl (pshCellStep unit) s)
      (fun st row h => foldl_preserve DedupInv (pshCellStep unit)
        (fun s c hs => pshCellStep_dedup unit s c hs) row st h)
      table ([], []) ⟨List.nodup_nil, by intro r hr; cases hr⟩
  have hperm := (pySort_perm (fun r : CompositionRecord => elementOrder r.element_symbol)
    (table.foldl (fun s row => row.foldl (pshCellStep unit) s) ([], [])).1).map
      (fun r => r.element_symbol)
  rw [hperm.nodup_iff]
  exact hfold.1

/-! ### The cleaning steps fix plain decimal strings -/

theorem dropWhile_eq_self_of_not {p : Char → Bool} :
    ∀ l : List Char, (∀ c ∈ l, p c = false) → l.dropWhile p = l
  | [], _ => rfl
  | c :: rest, h => by
    rw [List.dropWhile_cons, h c (List.mem_cons_self c rest)]
    simp

theorem pyStripList_eq_self (l : List Char) (h : ∀ c ∈ l, isSpc c = false) :
    pyStripList l = l := by
  unfold pyStripList
  rw [dropWhile_eq_self_of_not l h,
    dropWhile_eq_self_of_not l.reverse (fun c hc => h c (List.mem_reverse.mp hc)),
    List.reverse_reverse]

theorem mapComma_eq_self :
    ∀ l : List Char, (∀ c ∈ l, ¬ c = ',') →
      l.map (fun c => if c == ',' then '.' else c) = l
  | [], _ => rfl
  | c :: rest, h => by
    have hc : ¬ (c == ',') = true := by
      simpa using h c (List.mem_cons_self c rest)
    rw [List.map_cons, if_neg hc,
      mapComma_eq_self rest (fun x hx => h x (List.mem_cons_of_mem c hx))]

theorem filterPct_eq_self (l : List Char) (h : ∀ c ∈ l, ¬ c = '%') :
    l.filter (fun c => !(c == '%')) = l := by
  refine List.filter_eq_self.mpr ?_
  intro c hc
  simpa using h c hc

theorem collapseF_eq_self (fuel : ℕ) :
    ∀ l : List Char, (∀ c ∈ l, isSpc c = false) → collapseF fuel l = l := by
  induction fuel with
  | zero =>
    intro l _
    cases l <;> rfl
  | succ n ih =>
    intro l h
    match l with
    | [] => rfl
    | c :: rest =>
      have hr : ∀ x ∈ rest, isSpc x = false :=
        fun x hx => h x (List.mem_cons_of_mem c hx)
      match rest, hr with
      | [], _ =>
        simp only [collapseF]
        split <;> rfl
      | r :: rs, hr =>
        have hrs : isSpc r = false := hr r (List.mem_cons_self r rs)
        simp only [collapseF, hrs]
        split
        · simp only [Bool.false_eq_true, if_false]
          rw [ih (r :: rs) hr]
        · rw [ih (r :: rs) hr]

theorem collapse_eq_self (l : List Char) (h : ∀ c ∈ l, isSpc c = false) :
    collapse l = l := collapseF_eq_self l.length l h

/-! ### Character classes of successfully parsed floats -/

theorem mem_takeWhile_digit {l : List Char} {c : Char}
    (h : c ∈ l.takeWhile Char.isDigit) : c.isDigit = true :=
  List.mem_takeWhile_imp h

theorem pfCore_chars (l : List Char) (v : ℚ) (h : pfCore l = some v) :
    ∀ c ∈ l, c.isDigit = true ∨ c = '.' := by
  have hsplit : l.takeWhile Char.isDigit ++ l.dropWhile Char.isDigit = l :=
    List.takeWhile_append_dropWhile Char.isDigit l
  unfold pfCore at h
  split at h
  case h_1 hdw =>
    intro c hc
    rw [← hsplit, hdw, List.append_nil] at hc
    exact Or.inl (mem_takeWhile_digit hc)
  case h_2 fp1 hdw =>
    split at h
    case isTrue hfp =>
      have hfp1 : fp1.takeWhile Char.isDigit = fp1 := by
        have := List.takeWhile_append_dropWhile Char.isDigit fp1
        rw [List.isEmpty_iff.mp hfp, List.append_nil] at this
        exact this
      intro c hc
      rw [← hsplit, hdw] at hc
      rcases List.mem_append.mp hc with hc' | hc'
      · exact Or.inl (mem_takeWhile_digit hc')
      · rcases List.mem_cons.mp hc' with rfl | hc''
        · exact Or.inr rfl
        · rw [← hfp1] at hc''
          exact Or.inl (mem_takeWhile_digit hc'')
    case isFalse => exact absurd h (by simp)
  case h_3 => exact absurd h (by simp)

theorem parseFloat_chars (l : List Char) (v : ℚ)
    (h : parseFloatList? l = some v) :
    ∀ c ∈ l, c.isDigit = true ∨ c = '.' ∨ c = '-' ∨ c = '+' := by
  match l with
  | [] => intro c hc; cases hc
  | c0 :: rest =>
    simp only [parseFloatList?] at h
    by_cases h0 : c0 = '-'
    · subst h0
      rw [if_pos rfl] at h
      intro c hc
      rcases List.mem_cons.mp hc with rfl | hc'
      · exact Or.inr (Or.inr (Or.inl rfl))
      · rcases ho : pfCore rest with _ | v0
        · rw [ho] at h; simp at h
        · rcases pfCore_chars rest v0 ho c hc' with hd | hd
          · exact Or.inl hd
          · exact Or.inr (Or.inl hd)
    · rw [if_neg h0] at h
      by_cases h1 : c0 = '+'
      · subst h1
        rw [if_pos rfl] at h
        intro c hc
        rcases List.mem_cons.mp hc with rfl | hc'
        · exact Or.inr (Or.inr (Or.inr rfl))
        · rcases pfCore_chars rest v h c hc' with hd | hd
          · exact Or.inl hd
          · exact Or.inr (Or.inl hd)
      · rw [if_neg h1] at h
        intro c hc
        rcases pfCore_chars _ v h c hc with hd | hd
        · exact Or.inl hd
        · exact Or.inr (Or.inl hd)

theorem isSpc_spec (c : Char) :
    isSpc c = true ↔
      (c = ' ' ∨ c = '\t' ∨ c = '\n' ∨ c = '\x0d' ∨ c = '\x0b' ∨ c = '\x0c') := by
  simp [isSpc, Bool.or_eq_true, beq_iff_eq, or_assoc]

theorem pfClass_ne (c : Char)
    (h : c.isDigit = true ∨ c = '.' ∨ c = '-' ∨ c = '+') (d : Char)
    (hd : d.isDigit = false) (h1 : ¬ d = '.') (h2 : ¬ d = '-') (h3 : ¬ d = '+') :
    ¬ c = d := by
  intro e
  subst e
  rcases h with h | rfl | rfl | rfl
  · rw [h] at hd
    cases hd
  · exact h1 rfl
  · exact h2 rfl
  · exact h3 rfl

theorem isSpc_false_of_pf (c : Char)
    (h : c.isDigit = true ∨ c = '.' ∨ c = '-' ∨ c = '+') : isSpc c = false := by
  cases hc : isSpc c
  · rfl
  · exfalso
    rcases (isSpc_spec c).mp hc with rfl | rfl | rfl | rfl | rfl | rfl <;>
      rcases h with h | h | h | h <;> revert h <;> decide

theorem nnClean_eq_self (s : String)
    (hch : ∀ c ∈ s.data, c.isDigit = true ∨ c = '.' ∨ c = '-' ∨ c = '+') :
    nnClean s = (false, s.data) := by
  have hnospc : ∀ c ∈ s.data, isSpc c = false :=
    fun c hc => isSpc_false_of_pf c (hch c hc)
  have h1 : pyStripList s.data = s.data := pyStripList_eq_self _ hnospc
  have h2 : (s.data.head? == some '<') = false := by
    cases hd : s.data with
    | nil => rfl
    | cons c rest =>
      have hcl := hch c (hd ▸ List.mem_cons_self c rest)
      have : ¬ c = '<' := pfClass_ne c hcl '<' (by decide) (by decide) (by decide) (by decide)
      simp [this]
  have h3 : s.data.map (fun c => if c == ',' then '.' else c) = s.data :=
    mapComma_eq_self s.data
      (fun c hc => pfClass_ne c (hch c hc) ',' (by decide) (by decide) (by decide) (by decide))
  have h4 : s.data.filter (fun c => !(c == '%')) = s.data :=
    filterPct_eq_self s.data
      (fun c hc => pfClass_ne c (hch c hc) '%' (by decide) (by decide) (by decide) (by decide))
  have h5 : collapse s.data = s.data := collapse_eq_self s.data hnospc
  simp only [nnClean, h1, h2, Bool.false_eq_true, if_false, h3, h4, h5]

theorem valid_wtpct_not_gt (v : ℚ)
    (h : is_valid_composition_value v "wt.%" = true) : ¬ 100 < v := by
  unfold is_valid_composition_value at h
  rw [if_pos (show ("wt.%" : String) ∈ (["wt.%", "wt%", "%", "weight%", "mass%"] : List String)
    by decide)] at h
  split at h
  case isTrue hv => intro hc; linarith
  case isFalse hv => intro hc; exact absurd (of_decide_eq_true h).2 (not_le.mpr hc)

/-! ### Claim theorems -/

/-- Claim C1, counterexample: on input `"<0.001"` the Numeric Normalizer does
not return a trace marker distinct from every parsed float — it returns
exactly the plain parsed float `0.001` (the same value the float parser
produces for `"0.001"`), in its ordinary `Option ℚ` return type, which has no
separate trace-marker value at all. -/
theorem c1_counterexample :
    normalize_number "<0.001" = some (1 / 1000) ∧
    parseFloat? "0.001" = some (1 / 1000) := by
  constructor <;> decide

/-- Claim C1 (amended): for `"<0.001"` the normalizer strips the `<`, parses
the remainder directly and returns the plain float `0.001`; the trace flag
never surfaces in the result — it only reroutes dotless inputs into the trace
branch of decimal inference (e.g. `"<1"` also becomes `0.001`) and disables
the over-100 correction. -/
theorem c1_trace_plain_float :
    normalize_number "<0.001" = some (1 / 1000) ∧
    normalize_number "<1" = some (1 / 1000) := by
  constructor <;> decide

/-- Claim C2: the classifier lowercases the flattened text but counts
case-sensitive occurrences of the capitalised element symbols, so the
element-symbol count is always 0. The grid `[["Al","V","Fe"]]` mentions three
of the eight priority symbols and no keyword, yet the classifier returns
`false`, contradicting the claimed `element matches ≥ 3` acceptance (and the
source's own comment). -/
theorem c2_classifier_failing_input :
    is_chemical_composition_table [["Al", "V", "Fe"]] = false ∧
    3 ≤ ELEMENT_SYMBOLS.countP
      (fun s => listContainsSub s.data (joinSpace ["Al", "V", "Fe"]).data) := by
  constructor <;> decide

/-- Claim C3: `infer_decimal_placement` branches on the integer value of the
digit string, and `int()` discards leading zeros, so the 3-digit input
`"005"` takes the one-digit branch and yields `5.0` — not `0.005` as the
claimed digit-count table (and the source's own comments, `005 -> 0.005`)
require. -/
theorem c3_leading_zeros_failing_input :
    infer_decimal_placement "005" false = some 5 ∧
    ¬ infer_decimal_placement "005" false = some (1 / 200) := by
  constructor <;> decide

/-- Claim C4: the mean-based post-correction of the Composition Extractor:
mean above 50 divides every value by 100; mean in (20, 50] divides exactly
the values above 50 by 100; mean at most 20 leaves the list unchanged. -/
theorem c4_mean_correction : ∀ l : List CompositionRecord,
    (50 < avgOf l →
      postProcess l = l.map (fun r => { r with value := r.value / 100 })) ∧
    (20 < avgOf l ∧ avgOf l ≤ 50 →
      postProcess l
        = l.map (fun r => if 50 < r.value then { r with value := r.value / 100 } else r)) ∧
    (avgOf l ≤ 20 → postProcess l = l) := by
  intro l
  have hemp : l.isEmpty = true → avgOf l = 0 := by
    intro h
    rw [List.isEmpty_iff.mp h]
    simp [avgOf]
  refine ⟨?_, ?_, ?_⟩
  · intro h
    have hne : ¬ l.isEmpty = true := by
      intro hl
      exact absurd h (by rw [hemp hl]; norm_num)
    unfold postProcess
    rw [if_neg hne, if_pos h]
  · rintro ⟨h1, h2⟩
    have hne : ¬ l.isEmpty = true := by
      intro hl
      exact absurd h1 (by rw [hemp hl]; norm_num)
    unfold postProcess
    rw [if_neg hne, if_neg (not_lt.mpr h2), if_pos h1]
  · intro h
    unfold postProcess
    by_cases hl : l.isEmpty = true
    · rw [if_pos hl]
    · rw [if_neg hl, if_neg (not_lt.mpr (le_trans h (by norm_num))),
        if_neg (not_lt.mpr h)]

/-- Witness for C4: the three branches at concrete lists with means 65,
35 and 5. -/
theorem c4_mean_correction_witness :
    postProcess [⟨"Al", 65, "wt.%"⟩, ⟨"V", 65, "wt.%"⟩]
      = ([⟨"Al", 65, "wt.%"⟩, ⟨"V", 65, "wt.%"⟩] : List CompositionRecord).map
          (fun r => { r with value := r.value / 100 }) ∧
    postProcess [⟨"Al", 60, "wt.%"⟩, ⟨"V", 10, "wt.%"⟩]
      = ([⟨"Al", 60, "wt.%"⟩, ⟨"V", 10, "wt.%"⟩] : List CompositionRecord).map
          (fun r => if 50 < r.value then { r with value := r.value / 100 } else r) ∧
    postProcess [⟨"Al", 5, "wt.%"⟩] = [⟨"Al", 5, "wt.%"⟩] :=
  ⟨(c4_mean_correction _).1 (by decide),
   (c4_mean_correction _).2.1 (by decide),
   (c4_mean_correction _).2.2 (by decide)⟩

/-- Claim C5, counterexample: the over-100 correction tests the signed parsed
value, not its magnitude. `"-200.5"` parses to `-200.5`, whose magnitude
exceeds 100, yet the normalizer returns it unchanged instead of the claimed
`-20.05`. -/
theorem c5_counterexample :
    normalize_number "-200.5" = some (-(401 / 2)) ∧
    ¬ normalize_number "-200.5" = some (-(401 / 20)) := by
  constructor <;> decide

/-- Claim C5 (amended): for every non-trace input whose cleaned form still
contains a decimal point and parses directly to a float value exceeding 100
(signed value, not magnitude), the result is the parsed value divided by 1000
when it exceeds 1000, else divided by 10. -/
theorem c5_over100_correction : ∀ (s : String) (c : List Char) (v : ℚ),
    nnClean s = (false, c) → '.' ∈ c → parseFloatList? c = some v → 100 < v →
    normalize_number s = some (if 1000 < v then v / 1000 else v / 10) := by
  intro s c v hclean hdot hpf hv
  have hs : ¬ s = "" := by
    intro e
    subst e
    have h0 : nnClean "" = (false, ([] : List Char)) := rfl
    rw [h0] at hclean
    injection hclean with _ h2
    subst h2
    exact absurd hdot (List.not_mem_nil _)
  unfold normalize_number
  rw [if_neg hs, hclean]
  dsimp only
  rw [if_pos hdot, hpf]
  dsimp only
  rw [if_pos (show 100 < v ∧ (false : Bool) = false from ⟨hv, rfl⟩)]
  by_cases h1000 : 1000 < v
  · rw [if_pos h1000, if_pos h1000]
  · rw [if_neg h1000, if_neg h1000]

/-- Witness for C5: `"250.5"` is corrected to `25.05`. -/
theorem c5_over100_correction_witness :
    nnClean "250.5" = (false, "250.5".data) ∧ ('.' ∈ "250.5".data) ∧
    parseFloatList? "250.5".data = some (501 / 2) ∧ ((100 : ℚ) < 501 / 2) ∧
    normalize_number "250.5"
      = some (if 1000 < (501 / 2 : ℚ) then (501 / 2 : ℚ) / 1000 else (501 / 2 : ℚ) / 10) :=
  ⟨by decide, by decide, by decide, by decide,
   c5_over100_correction "250.5" "250.5".data (501 / 2)
     (by decide) (by decide) (by decide) (by decide)⟩

/-- Claim C6: every record emitted by the Composition Extractor or the
Fallback Heuristic Extractor satisfies the unit-specific plausibility check
(the record type has no trace markers, so this covers every emitted value),
and this survives the mean-based post-correction. -/
theorem c6_plausibility_invariant : ∀ (table : List (List String)) (r : CompositionRecord),
    (r ∈ parse_table_to_composition_data table →
      is_valid_composition_value r.value r.unit = true) ∧
    (r ∈ parse_table_simple_heuristic table →
      is_valid_composition_value r.value r.unit = true) := by
  intro table r
  constructor
  · intro hr
    unfold parse_table_to_composition_data at hr
    split at hr
    · exact absurd hr (List.not_mem_nil r)
    · exact pipelineA_valid _ _ _ r hr
  · intro hr
    unfold parse_table_simple_heuristic at hr
    exact pipelineB_valid _ _ r hr

/-- Witness for C6: a record of each extractor, at concrete tables. -/
theorem c6_plausibility_invariant_witness :
    is_valid_composition_value ((653 : ℚ) / 100) "wt.%" = true ∧
    is_valid_composition_value ((19 : ℚ) / 100) "wt.%" = true :=
  ⟨(c6_plausibility_invariant [["Element", "wt.%"], ["Al", "653"]]
      ⟨"Al", 653 / 100, "wt.%"⟩).1 (by decide),
   (c6_plausibility_invariant [["Fe 0,19"]] ⟨"Fe", 19 / 100, "wt.%"⟩).2 (by decide)⟩

/-- Claim C7: neither extractor ever emits two records with the same element
symbol, and on a concrete duplicate-element grid the first-found record wins
(the later `Al` row is silently dropped). -/
theorem c7_no_duplicate_elements :
    (∀ table : List (List String),
      ((parse_table_to_composition_data table).map (fun r => r.element_symbol)).Nodup ∧
      ((parse_table_simple_heuristic table).map (fun r => r.element_symbol)).Nodup) ∧
    parse_table_to_composition_data [["Element", "wt.%"], ["Al", "6.53"], ["Al", "2.5"]]
      = [⟨"Al", 653 / 100, "wt.%"⟩] := by
  constructor
  · intro table
    constructor
    · unfold parse_table_to_composition_data
      split
      · simp
      · exact pipelineA_nodup _ _ _
    · unfold parse_table_simple_heuristic
      exact pipelineB_nodup _ _
  · decide

/-- Claim C8: the reconstructed rows are ordered by ascending anchor, the
fragments of each row are processed in ascending order of their left
coordinate, and empty input yields an empty grid. -/
theorem c8_row_monotonicity :
    (∀ ocr : List TextFragment,
      (sortedRowsOf ocr).Pairwise (fun a b => a.1 ≤ b.1)) ∧
    (∀ (ocr : List TextFragment) (row : ℤ × List TextFragment),
      row ∈ sortedRowsOf ocr →
        (sortRowFrags row.2).Pairwise (fun f g => f.left ≤ g.left)) ∧
    detect_table_regions [] = [] := by
  refine ⟨?_, ?_, rfl⟩
  · intro ocr
    exact pySort_pairwise (fun r => r.1) (rowsOf ocr)
  · intro ocr row _
    exact pySort_pairwise (fun f => f.left) row.2

/-- Witness for C8: a two-fragment input whose rows come out anchor-sorted. -/
theorem c8_row_monotonicity_witness :
    (((10 : ℤ), [(⟨"a", 0, 0, 10, 20, 90⟩ : TextFragment)]) ∈
      sortedRowsOf [⟨"b", 0, 100, 10, 20, 90⟩, ⟨"a", 0, 0, 10, 20, 90⟩]) ∧
    (sortRowFrags [⟨"a", 0, 0, 10, 20, 90⟩]).Pairwise (fun f g => f.left ≤ g.left) :=
  ⟨by decide,
   c8_row_monotonicity.2.1 [⟨"b", 0, 100, 10, 20, 90⟩, ⟨"a", 0, 0, 10, 20, 90⟩]
     ((10 : ℤ), [⟨"a", 0, 0, 10, 20, 90⟩]) (by decide)⟩

/-- Claim C9, counterexample: Python renders `0.00001` as `"1e-05"`, a
plausible percentage value; the normalizer returns `none` on that string (the
exponent survives no cleaning step and the digit string `1-05` fails integer
parsing), not a value within `1e-6` of the input. -/
theorem c9_counterexample :
    normalize_number "1e-05" = none ∧
    is_valid_composition_value (1 / 100000) "wt.%" = true := by
  constructor <;> decide

/-- Claim C9 (amended): the normalizer is exactly idempotent on plausible
percentage values whose string form is a plain decimal numeral containing a
dot (Python produces such strings for every float in `[0.0001, 1e16)` and for
zero; smaller magnitudes are rendered in scientific notation, where the
normalizer returns `none` instead). -/
theorem c9_idempotence_plain_decimal : ∀ (s : String) (v : ℚ),
    parseFloat? s = some v → '.' ∈ s.data →
    is_valid_composition_value v "wt.%" = true →
    normalize_number s = some v := by
  intro s v hp hdot hval
  have hch := parseFloat_chars s.data v hp
  have hclean := nnClean_eq_self s hch
  have hs : ¬ s = "" := by
    intro e
    subst e
    exact absurd hdot (List.not_mem_nil _)
  have hp' : parseFloatList? s.data = some v := hp
  unfold normalize_number
  rw [if_neg hs, hclean]
  dsimp only
  rw [if_pos hdot, hp']
  dsimp only
  rw [if_neg (fun h : 100 < v ∧ (false : Bool) = false => valid_wtpct_not_gt v hval h.1)]

/-- Witness for C9: normalizing `"0.19"` reproduces `0.19` exactly. -/
theorem c9_idempotence_plain_decimal_witness :
    parseFloat? "0.19" = some (19 / 100) ∧ ('.' ∈ "0.19".data) ∧
    is_valid_composition_value ((19 : ℚ) / 100) "wt.%" = true ∧
    normalize_number "0.19" = some (19 / 100) :=
  ⟨by decide, by decide, by decide,
   c9_idempotence_plain_decimal "0.19" (19 / 100) (by decide) (by decide) (by decide)⟩

/-- Claim C10: a grid with fewer than two rows produces no records from the
primary extractor, whatever its cells contain. -/
theorem c10_short_table_empty : ∀ table : List (List String),
    table.length < 2 → parse_table_to_composition_data table = [] := by
  intro t h
  unfold parse_table_to_composition_data
  rw [if_pos (Or.inr h)]

/-- Witness for C10: a one-row grid with a recognisable element and value
still yields nothing. -/
theorem c10_short_table_empty_witness :
    ([["Al", "6.53"]] : List (List String)).length < 2 ∧
    parse_table_to_composition_data [["Al", "6.53"]] = [] :=
  ⟨by decide, c10_short_table_empty [["Al", "6.53"]] (by decide)⟩
